import Mathlib

/-!
Verification of the data ingestion and column-role resolution pipeline of the
Business Intelligence Workflow Assistant (module/data_utils.py and app/app.py).

The Python code is shallowly embedded: a pandas DataFrame becomes `Dataset`
(ordered headers plus rows of cells), the difflib fuzzy matcher is implemented
following CPython's `SequenceMatcher`/`get_close_matches` (no junk heuristics,
which are inactive on the short strings involved), and external collaborators
(the file system, the pandas readers, the chardet detector and the Gemini call)
are passed in as explicit parameters.
-/

namespace BIW

/-- A single cell of a tabular dataset: pandas NaN/NaT are `null`, strings,
numbers and parsed calendar dates are the other cases. -/
inductive Cell where
  | null
  | str (s : String)
  | num (n : Int)
  | date (y m d : Nat)
deriving DecidableEq, Repr

def Cell.isNull : Cell → Bool
  | .null => true
  | _ => false

def Cell.isStr : Cell → Bool
  | .str _ => true
  | _ => false

def Cell.isNum : Cell → Bool
  | .num _ => true
  | _ => false

def Cell.isDate : Cell → Bool
  | .date _ _ _ => true
  | _ => false

/-- A pandas DataFrame: ordered column headers and rows of cells. -/
structure Dataset where
  headers : List String
  rows : List (List Cell)
deriving DecidableEq, Repr

/-- Models Python str.lower on the character range the pipeline's synonym
tables and examples use (uppercase letters map to lowercase). -/
def lowerStr (s : String) : String := String.mk (s.data.map Char.toLower)

/-- First list is an initial segment of the second. -/
def startsList : List Char → List Char → Bool
  | [], _ => true
  | _ :: _, [] => false
  | c :: cs, d :: ds => c == d && startsList cs ds

def hasSubList : List Char → List Char → Bool
  | sub, [] => startsList sub []
  | sub, c :: cs => startsList sub (c :: cs) || hasSubList sub cs

/-- Substring test, modelling the Python expression sub in s. -/
def hasSub (s sub : String) : Bool := hasSubList sub.data s.data

/-- Python str.strip's whitespace test (the characters appearing in this
repository's data). -/
def isSpaceChar (c : Char) : Bool :=
  c == ' ' || c == '\t' || c == '\n' || c == '\r'

def dropLeadSpaces : List Char → List Char
  | [] => []
  | c :: cs => if isSpaceChar c then dropLeadSpaces cs else c :: cs

/-- Python str.strip: remove leading and trailing whitespace. -/
def trimStr (s : String) : String :=
  String.mk (dropLeadSpaces (dropLeadSpaces s.data.reverse).reverse)

/-! ### difflib model

`SequenceMatcher` with no junk (autojunk only activates on sequences of 200+
elements, far beyond any header here): `findLongestMatch` is the dynamic
program over positions of each character of `a` in `b`, `matchSum` adds the
sizes of the recursively split matching blocks, and the ratio is
`2*matchSum/(|a|+|b|)` as an exact rational. -/

/-- Positions (ascending) of character c in b, modelling SequenceMatcher's b2j. -/
def b2j (b : List Char) (c : Char) : List Nat :=
  (List.range b.length).filter (fun j => b.get? j == some c)

structure FLM where
  besti : Nat
  bestj : Nat
  bestk : Nat
deriving DecidableEq, Repr

def lookupLen (l : List (Nat × Nat)) (j : Nat) : Nat :=
  match l.find? (fun p => p.1 == j) with
  | some p => p.2
  | none => 0

/-- One row of the longest-match dynamic program: extend runs ending at each
position j of the current character of a inside [blo, bhi). -/
def flmRow (blo bhi : Nat) (j2len : List (Nat × Nat)) (i : Nat) (js : List Nat)
    (st : FLM) : List (Nat × Nat) × FLM :=
  js.foldl (fun acc j =>
    if blo ≤ j ∧ j < bhi then
      let k := (if j = 0 then 0 else lookupLen j2len (j - 1)) + 1
      let st2 := if k > acc.2.bestk then FLM.mk (i + 1 - k) (j + 1 - k) k else acc.2
      ((j, k) :: acc.1, st2)
    else acc) ([], st)

/-- SequenceMatcher.find_longest_match restricted to a[alo:ahi] and b[blo:bhi],
with no junk elements (so the junk extension passes are no-ops). -/
def findLongestMatch (a b : List Char) (alo ahi blo bhi : Nat) : FLM :=
  let step := fun (acc : List (Nat × Nat) × FLM) (i : Nat) =>
    match a.get? i with
    | some c => flmRow blo bhi acc.1 i (b2j b c) acc.2
    | none => ([], acc.2)
  ((List.range' alo (ahi - alo)).foldl step ([], FLM.mk alo blo 0)).2

/-- Total size of all matching blocks, via the recursive split around the
longest match (fuel bounds the recursion; it is ample for the fixed inputs). -/
def mblocks (a b : List Char) : Nat → List (Nat × Nat × Nat × Nat) → Nat → Nat
  | 0, _, acc => acc
  | _ + 1, [], acc => acc
  | fuel + 1, q :: queue, acc =>
    let alo := q.1
    let ahi := q.2.1
    let blo := q.2.2.1
    let bhi := q.2.2.2
    let m := findLongestMatch a b alo ahi blo bhi
    if 0 < m.bestk then
      mblocks a b fuel
        ((alo, m.besti, blo, m.bestj) :: (m.besti + m.bestk, ahi, m.bestj + m.bestk, bhi) :: queue)
        (acc + m.bestk)
    else
      mblocks a b fuel queue acc

def matchSum (a b : List Char) : Nat :=
  mblocks a b (2 * (a.length + b.length) + 4) [(0, a.length, 0, b.length)] 0

/-- SequenceMatcher(a, b).ratio() as an exact rational; 1 when both empty.
Used in statements; computations use the cross-multiplied Nat forms below,
which agree with Python's float comparisons on these small fractions. -/
def simRatio (a b : String) : Rat :=
  let t := a.length + b.length
  if t = 0 then 1 else (2 * (matchSum a.data b.data) : Nat) / (t : Rat)

/-- The ratio as an exact numerator/denominator pair ((1,1) when both empty). -/
def ratioPair (a b : String) : Nat × Nat :=
  let t := a.length + b.length
  if t = 0 then (1, 1) else (2 * matchSum a.data b.data, t)

/-- ratio(a, b) ≥ 0.4, the get_close_matches cutoff test, by cross
multiplication: 2*matchSum/t ≥ 2/5 iff t ≤ 5*matchSum. -/
def ratioGeCutoff (a b : String) : Bool :=
  let t := a.length + b.length
  if t = 0 then true else decide (t ≤ 5 * matchSum a.data b.data)

/-- Strict comparison of two ratio fractions by cross multiplication. -/
def fracLt (p q : Nat × Nat) : Bool := decide (p.1 * q.2 < q.1 * p.2)

/-- Equality of two ratio fractions by cross multiplication. -/
def fracEqB (p q : Nat × Nat) : Bool := p.1 * q.2 == q.1 * p.2

/-- Python string comparison (code-point lexicographic), used by the nlargest
tie-break inside get_close_matches. -/
def strLtB : List Char → List Char → Bool
  | [], [] => false
  | [], _ :: _ => true
  | _ :: _, [] => false
  | c :: cs, d :: ds =>
    if c.val < d.val then true
    else if d.val < c.val then false
    else strLtB cs ds

/-- The heapq.nlargest(1, ...) selection over (ratio, string) pairs: keep the
pair that is greater in the lexicographic tuple order Python uses. -/
def pickStep (best : Option ((Nat × Nat) × String)) (p : (Nat × Nat) × String) :
    Option ((Nat × Nat) × String) :=
  match best with
  | none => some p
  | some q =>
    if fracLt q.1 p.1 || (fracEqB q.1 p.1 && strLtB q.2.data p.2.data) then some p
    else some q

/-- difflib.get_close_matches(word, possibilities, n=1, cutoff=0.4): keep the
possibilities whose ratio against word reaches the cutoff and return the one
with the greatest (ratio, string) pair, if any. -/
def getCloseMatch (word : String) (poss : List String) : Option String :=
  let scored := poss.filterMap (fun x =>
    if ratioGeCutoff x word then some (ratioPair x word, x) else none)
  (scored.foldl pickStep none).map Prod.snd

/-! ### Synonym table and dataset operations (module/data_utils.py) -/

/-- COLUMN_SYNONYMS from module/data_utils.py, in source order. -/
def COLUMN_SYNONYMS : List (String × List String) :=
  [("Revenue", ["Revenue", "Sales", "Total", "Income", "Ingresos", "Amount", "Ventas"]),
   ("Product", ["Product", "Item", "Producto", "Product_Name", "商品"]),
   ("Region", ["Region", "Area", "Territory", "Zone", "Región", "地区"]),
   ("Month", ["Month", "Mes", "Periodo", "Period", "Date", "Fecha", "月份"])]

/-- COLUMN_SYNONYMS.get(expected, [expected]). -/
def synonymsFor (expected : String) : List String :=
  match COLUMN_SYNONYMS.find? (fun p => p.1 == expected) with
  | some p => p.2
  | none => [expected]

/-- Index of the first occurrence of a name in a header list (list.index /
findIdx? over string equality). -/
def idxOf? : List String → String → Option Nat
  | [], _ => none
  | h :: t, n => if h == n then some 0 else (idxOf? t n).map (fun i => i + 1)

/-- Column values by header name (first occurrence), as pandas df[name]. -/
def getCol (df : Dataset) (name : String) : List Cell :=
  match idxOf? df.headers name with
  | some i => df.rows.map (fun r => r.getD i Cell.null)
  | none => []

/-- df[name] = values: overwrite the existing column in place, or append a
new column on the right, as pandas column assignment does. -/
def setCol (df : Dataset) (name : String) (vs : List Cell) : Dataset :=
  match idxOf? df.headers name with
  | some i => { df with rows := df.rows.zipWith (fun r v => r.set i v) vs }
  | none => { headers := df.headers ++ [name], rows := df.rows.zipWith (fun r v => r ++ [v]) vs }

/-- pandas dtypes relevant to the pipeline. -/
inductive Dtype where
  | numeric
  | object
  | datetime
deriving DecidableEq, Repr

/-- Models pandas dtype inference for a column: any string makes it object,
dates give datetime (mixed with numbers, object), otherwise numeric (an
all-null column is float64, hence numeric). -/
def colDtype (vs : List Cell) : Dtype :=
  if vs.any Cell.isStr then .object
  else if vs.any Cell.isDate then (if vs.any Cell.isNum then .object else .datetime)
  else .numeric

/-- pd.api.types.is_numeric_dtype(df[col]). -/
def isNumericCol (df : Dataset) (col : String) : Bool :=
  colDtype (getCol df col) == Dtype.numeric

/-! ### Date parsing model -/

/-- Split a character list on the dash separator. -/
def splitDash : List Char → List (List Char)
  | [] => [[]]
  | c :: cs =>
    let r := splitDash cs
    if c == '-' then [] :: r
    else
      match r with
      | [] => [[c]]
      | h :: t => (c :: h) :: t

def digitVal? (c : Char) : Option Nat :=
  if 48 ≤ c.val.toNat ∧ c.val.toNat ≤ 57 then some (c.val.toNat - 48) else none

/-- Value of a nonempty all-digit character list. -/
def natFromDigits (cs : List Char) : Option Nat :=
  if cs.isEmpty then none
  else
    cs.foldl (fun acc c =>
      match acc, digitVal? c with
      | some a, some d => some (a * 10 + d)
      | _, _ => none) (some 0)

/-- Models the date-string grammar handled by pandas.to_datetime for the ISO
dates this repository's data uses: "YYYY-MM-DD". -/
def parseISODate (s : String) : Option (Nat × Nat × Nat) :=
  match splitDash s.data with
  | [ys, ms, ds] =>
    match natFromDigits ys, natFromDigits ms, natFromDigits ds with
    | some y, some m, some d =>
      if ys.length = 4 ∧ 1 ≤ m ∧ m ≤ 12 ∧ 1 ≤ d ∧ d ≤ 31 then some (y, m, d) else none
    | _, _, _ => none
  | _ => none

/-- Models pandas.to_datetime(cell, errors="coerce"): dates pass through,
parseable date strings become dates, everything else becomes NaT (null). -/
def toDatetime : Cell → Cell
  | .date y m d => .date y m d
  | .str s =>
    match parseISODate s with
    | some (y, m, d) => .date y m d
    | none => .null
  | _ => .null

def natDigitsAux : Nat → Nat → List Char
  | 0, _ => []
  | fuel + 1, n =>
    if n < 10 then [Char.ofNat (48 + n)]
    else natDigitsAux fuel (n / 10) ++ [Char.ofNat (48 + n % 10)]

/-- Decimal digits of a natural number. -/
def natChars (n : Nat) : List Char := natDigitsAux (n + 1) n

def monthLabel (y m : Nat) : String :=
  String.mk (natChars y ++ '-' :: (if m < 10 then '0' :: natChars m else natChars m))

/-- Models Series.dt.to_period("M").astype(str) on one cell: a date gives its
"YYYY-MM" label, NaT stringifies to "NaT". -/
def periodStr : Cell → String
  | .date y m _ => monthLabel y m
  | _ => "NaT"

/-- Models Series.dt.to_period("M") without astype(str) (app.py's safe_column):
a date gives its month period, NaT stays null. -/
def periodCell : Cell → Cell
  | .date y m _ => .str (monthLabel y m)
  | _ => .null

/-! ### find_best_column (module/data_utils.py) -/

/-- The loop body of find_best_column over the remaining synonym terms. -/
def fbcGo (df : Dataset) (expected : String) : List String → Option String
  | [] => none
  | term :: rest =>
    match getCloseMatch (lowerStr term) (df.headers.map lowerStr) with
    | some m =>
      let cands := df.headers.filter (fun c => lowerStr c == m)
      if lowerStr expected == "revenue" then
        match cands.find? (fun c => isNumericCol df c) with
        | some col => some col
        | none => fbcGo df expected rest
      else
        match cands.head? with
        | some col => some col
        | none => fbcGo df expected rest
    | none => fbcGo df expected rest

/-- find_best_column(df, expected): scan the synonym list (or the bare
expected name) for the first term with a close match among the lowercased
headers; for the literal expected name "revenue" only a numeric column is
accepted. -/
def find_best_column (df : Dataset) (expected : String) : Option String :=
  fbcGo df expected (synonymsFor expected)

/-! ### safe_column (app/app.py) -/

/-- Truthiness-and-membership test of safe_column's first branch:
if current and current in df.columns. -/
def currentOk (df : Dataset) (current : Option String) : Bool :=
  match current with
  | some c => !c.data.isEmpty && df.headers.contains c
  | none => false

/-- First column of df.select_dtypes(include=t). -/
def firstDtypeCol (df : Dataset) (t : Dtype) : Option String :=
  df.headers.find? (fun c => colDtype (getCol df c) == t)

/-- safe_column(df, current, expected_role) from app/app.py. The Month branch
can mutate the DataFrame (df["Month"] = ...), so the possibly-updated dataset
is returned alongside the chosen column. -/
def safe_column (df : Dataset) (current : Option String) (role : String) :
    Dataset × Option String :=
  if currentOk df current then (df, current)
  else if lowerStr role == "revenue" then (df, firstDtypeCol df .numeric)
  else if lowerStr role == "month" then
    match df.headers.find? (fun c => hasSub (lowerStr c) "month") with
    | some col => (df, some col)
    | none =>
      if df.headers.contains "Date" then
        (setCol df "Month" ((getCol df "Date").map (fun c => periodCell (toDatetime c))),
         some "Month")
      else (df, none)
  else (df, firstDtypeCol df .object)

/-! ### Gemini inference model (infer_column_roles) -/

/-- JSON values, the shape json.loads produces. -/
inductive Json where
  | str (s : String)
  | num (n : Int)
  | bool (b : Bool)
  | null
  | arr (xs : List Json)
  | obj (kvs : List (String × Json))

abbrev JDict := List (String × Json)

/-- Python dict insertion: replace the value of an existing key, else append. -/
def assocInsert {β : Type} (d : List (String × β)) (k : String) (v : β) :
    List (String × β) :=
  if d.any (fun p => p.1 == k) then d.map (fun p => if p.1 == k then (k, v) else p)
  else d ++ [(k, v)]

/-- The dict json.loads builds from an object's key/value pairs (later
duplicates win). -/
def dictOfPairs (kvs : List (String × Json)) : JDict :=
  kvs.foldl (fun d p => assocInsert d p.1 p.2) []

def dictGet (d : JDict) (k : String) : Option Json :=
  (d.find? (fun p => p.1 == k)).map Prod.snd

def roleKeys : List String := ["Revenue", "Product", "Region", "Month"]

/-- Outcome of the external Gemini call inside infer_column_roles:
model.generate_content either raises, or yields text whose json.loads result
is a Json value (`none` when the text is not valid JSON). -/
inductive InferOutcome where
  | throws (msg : String)
  | returns (parsed : Option Json)

/-- The parsing block of infer_column_roles: a JSON object containing all four
role keys is kept, everything else (parse failure, non-object, missing keys)
collapses to the empty mapping through the except handler. -/
def parsedMapping (parsed : Option Json) : JDict :=
  match parsed with
  | some (.obj kvs) =>
    let d := dictOfPairs kvs
    if roleKeys.all (fun k => d.any (fun p => p.1 == k)) then d else []
  | _ => []

/-- infer_column_roles(df, api_key): the generate_content call sits outside
the try/except, so its exception propagates; only response parsing is
protected. -/
def infer_column_roles (o : InferOutcome) : Except String JDict :=
  match o with
  | .throws msg => .error msg
  | .returns parsed => .ok (parsedMapping parsed)

/-! ### The resolution pipeline of app/app.py (lines 71-78) -/

def jsonTruthy : Json → Bool
  | .null => false
  | .str s => !s.data.isEmpty
  | .num n => n != 0
  | .bool b => b
  | .arr xs => !xs.isEmpty
  | .obj kvs => !kvs.isEmpty

/-- Models inferred.get(role) or role, used immediately as a string inside
find_best_column: a truthy non-string value hits term.lower() and raises
AttributeError, a falsy or missing value falls back to the role name. -/
def candidateFor (d : JDict) (role : String) : Except String String :=
  match dictGet d role with
  | some v =>
    if jsonTruthy v then
      match v with
      | .str s => .ok s
      | _ => .error "AttributeError"
    else .ok role
  | none => .ok role

structure RoleMapping where
  revenue : Option String
  product : Option String
  region : Option String
  month : Option String
deriving DecidableEq, Repr

/-- One line of app.py 75-78: safe_column(df, find_best_column(df, cand), role). -/
def resolveRole (df : Dataset) (cand role : String) : Dataset × Option String :=
  safe_column df (find_best_column df cand) role

/-- Lines 75-78 of app.py given the already-parsed inference dict: resolve the
four roles in source order, threading the (possibly mutated) dataset. -/
def applyRoles (df : Dataset) (d : JDict) : Except String (Dataset × RoleMapping) :=
  match candidateFor d "Revenue" with
  | .error e => .error e
  | .ok rc =>
    let p1 := resolveRole df rc "Revenue"
    match candidateFor d "Product" with
    | .error e => .error e
    | .ok pc =>
      let p2 := resolveRole p1.1 pc "Product"
      match candidateFor d "Region" with
      | .error e => .error e
      | .ok gc =>
        let p3 := resolveRole p2.1 gc "Region"
        match candidateFor d "Month" with
        | .error e => .error e
        | .ok mc =>
          let p4 := resolveRole p3.1 mc "Month"
          .ok (p4.1, RoleMapping.mk p1.2 p2.2 p3.2 p4.2)

/-- The role-resolution pipeline: infer_column_roles followed by the four
safe_column(find_best_column(...)) lines. -/
def resolve_roles (df : Dataset) (o : InferOutcome) :
    Except String (Dataset × RoleMapping) :=
  match infer_column_roles o with
  | .error e => .error e
  | .ok d => applyRoles df d

/-- The resolution that results when the candidate mapping is empty: every
role falls back to its own name as the find_best_column argument. -/
def localResolve (df : Dataset) : Dataset × RoleMapping :=
  let p1 := resolveRole df "Revenue" "Revenue"
  let p2 := resolveRole p1.1 "Product" "Product"
  let p3 := resolveRole p2.1 "Region" "Region"
  let p4 := resolveRole p3.1 "Month" "Month"
  (p4.1, RoleMapping.mk p1.2 p2.2 p3.2 p4.2)

/-! ### load_and_clean_data (module/data_utils.py) -/

inductive LoadError where
  | excelError
  | decodeError (enc : String)
  | unsupportedFormat
  | emptyDataset
deriving DecidableEq, Repr

/-- The loader's external collaborators for one uploaded file: the path (only
its extension is consulted), the pd.read_excel outcome, the chardet best guess
(already defaulted to "utf-8" when detection returns None), and the
pd.read_csv outcome for each candidate encoding (`none` means the read
raised). -/
structure FileInput where
  path : String
  readExcel : Option Dataset
  detected : String
  readCsv : String → Option Dataset

/-- Characters after the last path separator. -/
def afterLastSlash (cs : List Char) : List Char :=
  cs.foldl (fun acc c => if c == '/' then [] else acc ++ [c]) []

/-- Models os.path.splitext's extension: the suffix of the last path component
from its final dot, where a dot preceded only by dots yields no extension. -/
def extOf (path : String) : String :=
  let cs := afterLastSlash path.data
  let dotIdxs := (List.range cs.length).filter (fun i =>
    cs.get? i == some '.' && (List.range i).any (fun j => !(cs.get? j == some '.')))
  match dotIdxs.getLast? with
  | some i => String.mk (cs.drop i)
  | none => ""

def excelExts : List String := [".xls", ".xlsx"]
def csvExts : List String := [".csv", ".txt"]

/-- pandas df.empty: true when either axis has length zero. -/
def dfEmpty (df : Dataset) : Bool := df.rows.isEmpty || df.headers.isEmpty

/-- df.columns = [col.strip() for col in df.columns]. -/
def stripHeaders (df : Dataset) : Dataset :=
  { df with headers := df.headers.map (fun h => trimStr h) }

def rowAllNull (r : List Cell) : Bool := r.all Cell.isNull

/-- df.dropna(how="all"). -/
def dropAllNull (df : Dataset) : Dataset :=
  { df with rows := df.rows.filter (fun r => !(rowAllNull r)) }

/-- The Date-conversion block: df["Date"] = to_datetime(df["Date"], coerce);
df["Month"] = df["Date"].dt.to_period("M").astype(str). -/
def deriveMonth (df : Dataset) : Dataset :=
  let parsed := (getCol df "Date").map toDatetime
  let df1 := setCol df "Date" parsed
  setCol df1 "Month" (parsed.map (fun c => Cell.str (periodStr c)))

/-- substitute_column_names(df): for each role in source order, rename the
first column whose lowercased name equals a lowercased synonym to the
standard role name. -/
def substitute_column_names (df : Dataset) : Dataset :=
  let lowerCols := df.headers.map lowerStr
  let renamed := COLUMN_SYNONYMS.foldl (fun acc p =>
    match p.2.find? (fun v => lowerCols.contains (lowerStr v)) with
    | some v =>
      match idxOf? lowerCols (lowerStr v) with
      | some idx =>
        match df.headers.get? idx with
        | some current => assocInsert acc current p.1
        | none => acc
      | none => acc
    | none => acc) ([] : List (String × String))
  { df with headers := df.headers.map (fun h =>
      match renamed.find? (fun q => q.1 == h) with
      | some q => q.2
      | none => h) }

/-- The cleaning steps applied after a successful parse, in source order. -/
def cleanFrame (df : Dataset) : Dataset :=
  let d1 := stripHeaders df
  let d2 := dropAllNull d1
  let d3 := if d2.headers.contains "Date" then deriveMonth d2 else d2
  substitute_column_names d3

/-- The emptiness check and cleaning that follow any successful parse. -/
def afterParse (df : Dataset) : Except LoadError Dataset :=
  if dfEmpty df then .error .emptyDataset else .ok (cleanFrame df)

/-- load_and_clean_data(filepath): dispatch on the lowercased extension, read
with the single detected encoding for delimited text, then check emptiness and
clean. -/
def load_and_clean_data (f : FileInput) : Except LoadError Dataset :=
  let ext := lowerStr (extOf f.path)
  if excelExts.contains ext then
    match f.readExcel with
    | some df => afterParse df
    | none => .error .excelError
  else if csvExts.contains ext then
    match f.readCsv f.detected with
    | some df => afterParse df
    | none => .error (.decodeError f.detected)
  else .error .unsupportedFormat

/-- Rows all have the header count of cells (pandas frames are rectangular). -/
def WF (df : Dataset) : Prop := ∀ r ∈ df.rows, r.length = df.headers.length

/-- The frame after header stripping and empty-row dropping, used to state the
loader's cleaning behavior. -/
def preFrame (df : Dataset) : Dataset :=
  Dataset.mk (df.headers.map (fun h => trimStr h)) (df.rows.filter (fun r => !(rowAllNull r)))

/-! ### Helper lemmas -/

instance {ε α : Type} [DecidableEq ε] [DecidableEq α] : DecidableEq (Except ε α) := fun a b =>
  match a, b with
  | .error e, .error f =>
    if h : e = f then .isTrue (h ▸ rfl) else .isFalse (fun hh => h (Except.error.inj hh))
  | .ok x, .ok y =>
    if h : x = y then .isTrue (h ▸ rfl) else .isFalse (fun hh => h (Except.ok.inj hh))
  | .error _, .ok _ => .isFalse (fun hh => Except.noConfusion hh)
  | .ok _, .error _ => .isFalse (fun hh => Except.noConfusion hh)

theorem load_csv_case (f : FileInput)
    (h : lowerStr (extOf f.path) = ".csv" ∨ lowerStr (extOf f.path) = ".txt") :
    load_and_clean_data f =
      match f.readCsv f.detected with
      | some df => afterParse df
      | none => .error (.decodeError f.detected) := by
  rcases h with h | h <;> simp only [load_and_clean_data, h] <;> rfl

theorem load_excel_case (f : FileInput)
    (h : excelExts.contains (lowerStr (extOf f.path)) = true) :
    load_and_clean_data f =
      match f.readExcel with
      | some df => afterParse df
      | none => .error .excelError := by
  simp only [load_and_clean_data, h]
  rfl

theorem csv_contains_cases {e : String} (h : csvExts.contains e = true) :
    e = ".csv" ∨ e = ".txt" := by
  have hm : e ∈ csvExts := List.elem_iff.mp h
  rcases List.mem_cons.mp hm with h1 | h1
  · exact Or.inl h1
  · rcases List.mem_cons.mp h1 with h2 | h2
    · exact Or.inr h2
    · cases h2

/-! ### C9: unsupported extensions are rejected before any read -/

/-- C9: for every path whose lowercased extension is neither a recognized
spreadsheet extension nor a recognized delimited-text extension,
load_and_clean_data fails with UnsupportedFormat regardless of the file's
contents (the read collaborators are arbitrary), so no data is read or parsed
and no partial dataset is ever returned. -/
theorem unsupported_extension_rejected (path : String) (xl : Option Dataset)
    (det : String) (rc : String → Option Dataset)
    (h1 : excelExts.contains (lowerStr (extOf path)) = false)
    (h2 : csvExts.contains (lowerStr (extOf path)) = false) :
    load_and_clean_data ⟨path, xl, det, rc⟩ = .error .unsupportedFormat := by
  simp only [load_and_clean_data, h1, h2]
  rfl

/-- C9 witness: a ".pdf" upload is rejected as unsupported. -/
theorem unsupported_extension_rejected_witness :
    load_and_clean_data ⟨"report.pdf", none, "utf-8", fun _ => none⟩ =
      .error .unsupportedFormat :=
  unsupported_extension_rejected "report.pdf" none "utf-8" (fun _ => none) (by decide) (by decide)

/-! ### C10: the candidate mapping is empty or complete -/

/-- C10: whenever the Gemini call returns (rather than raising), the candidate
mapping infer_column_roles produces is either empty or contains all four role
keys; a JSON object missing any role is discarded entirely. -/
theorem inferred_mapping_complete_or_empty (p : Option Json) (d : JDict)
    (h : infer_column_roles (.returns p) = .ok d) :
    d = [] ∨ roleKeys.all (fun k => d.any (fun q => q.1 == k)) = true := by
  have hd : d = parsedMapping p := (Except.ok.inj h).symm
  subst hd
  cases p with
  | none => exact Or.inl rfl
  | some j =>
    cases j with
    | obj kvs =>
      simp only [parsedMapping]
      split
      · next hc => exact Or.inr hc
      · exact Or.inl rfl
    | str s => exact Or.inl rfl
    | num n => exact Or.inl rfl
    | bool b => exact Or.inl rfl
    | null => exact Or.inl rfl
    | arr xs => exact Or.inl rfl

/-- C10 witness: a non-JSON response yields the empty mapping. -/
theorem inferred_mapping_complete_or_empty_witness :
    ([] : JDict) = [] ∨
      roleKeys.all (fun k => ([] : JDict).any (fun q => q.1 == k)) = true :=
  inferred_mapping_complete_or_empty none [] rfl

/-! ### C1: inference failure handling -/

def c1df : Dataset := ⟨["A"], [[Cell.num 1]]⟩

/-- C1 counterexample: an exception raised by the Gemini call
(model.generate_content sits outside the try/except in infer_column_roles)
propagates out of the resolution pipeline to the caller, contradicting the
claim that no exception escapes when infer_fn fails. -/
theorem infer_exception_escapes :
    resolve_roles c1df (InferOutcome.throws "api unavailable") =
      .error "api unavailable" := rfl

/-- C1 (amended): when the inference call returns a malformed, non-object or
incomplete response — any response whose parsed mapping is empty — the
pipeline treats the candidate mapping as empty and returns exactly the local
fuzzy-matching resolution, raising nothing; but an exception thrown by the
inference call itself propagates to the caller. -/
theorem resolve_local_on_bad_response :
    (∀ (df : Dataset) (p : Option Json), parsedMapping p = [] →
        resolve_roles df (.returns p) = .ok (localResolve df)) ∧
    (∀ (df : Dataset) (msg : String),
        resolve_roles df (.throws msg) = .error msg) := by
  constructor
  · intro df p hp
    show applyRoles df (parsedMapping p) = .ok (localResolve df)
    rw [hp]
    rfl
  · intro df msg
    rfl

/-- C1 witness: an unparsable response on a one-column numeric dataset
resolves purely locally and returns a mapping with no exception. -/
theorem resolve_local_on_bad_response_witness :
    parsedMapping none = [] ∧
    resolve_roles ⟨["Revenue"], [[Cell.num 3]]⟩ (.returns none) =
      .ok (localResolve ⟨["Revenue"], [[Cell.num 3]]⟩) ∧
    localResolve ⟨["Revenue"], [[Cell.num 3]]⟩ =
      (⟨["Revenue"], [[Cell.num 3]]⟩, ⟨some "Revenue", none, some "Revenue", none⟩) :=
  ⟨rfl, resolve_local_on_bad_response.1 ⟨["Revenue"], [[Cell.num 3]]⟩ none rfl,
   by decide⟩

/-! ### C2: no encoding fallback chain exists -/

def c2df : Dataset := ⟨["Name"], [[Cell.str "a"]]⟩

def c2file : FileInput :=
  ⟨"ventas.csv", none, "utf-8", fun e => if e == "utf-8" then none else some c2df⟩

/-- C2 counterexample: a CSV byte stream that every legacy single-byte
encoding (latin-1, cp1252, iso-8859-1, ...) parses, but the auto-detected
guess does not, still fails with DecodeError — the loader never retries with
any fallback encoding. -/
theorem decode_error_despite_legacy_encoding :
    c2file.readCsv "latin-1" = some c2df ∧
    c2file.readCsv "cp1252" = some c2df ∧
    c2file.readCsv "iso-8859-1" = some c2df ∧
    load_and_clean_data c2file = .error (.decodeError "utf-8") :=
  ⟨rfl, rfl, rfl, by decide⟩

/-- C2 (amended): for delimited-text input the loader attempts exactly one
encoding — the auto-detected best guess — and raises DecodeError the moment
that single attempt fails; no other encoding is ever consulted. -/
theorem single_encoding_attempt (f : FileInput)
    (h : lowerStr (extOf f.path) = ".csv" ∨ lowerStr (extOf f.path) = ".txt") :
    load_and_clean_data f =
      match f.readCsv f.detected with
      | some df => afterParse df
      | none => .error (.decodeError f.detected) :=
  load_csv_case f h

/-- C2 witness: a CSV whose detected encoding fails to parse is rejected with
that encoding's DecodeError. -/
theorem single_encoding_attempt_witness :
    lowerStr (extOf "h.csv") = ".csv" ∧
    load_and_clean_data ⟨"h.csv", none, "koi8-r", fun _ => none⟩ =
      .error (.decodeError "koi8-r") :=
  ⟨by decide, single_encoding_attempt ⟨"h.csv", none, "koi8-r", fun _ => none⟩ (Or.inl (by decide))⟩

/-! ### C4: the emptiness check runs before empty rows are dropped -/

def c4file : FileInput :=
  ⟨"rows.csv", none, "utf-8", fun _ => some ⟨["a", "b"], [[Cell.null, Cell.null]]⟩⟩

/-- C4 counterexample: a parsed file whose only data row is entirely null
passes the emptiness check, the row is then dropped, and the loader returns a
dataset with zero data rows — contradicting the claim that it never does. -/
theorem loader_returns_zero_rows :
    load_and_clean_data c4file = .ok ⟨["a", "b"], []⟩ := by decide

/-- C4 (amended): for every input file that parses successfully — on the
spreadsheet path or the delimited-text path — EmptyDataset is raised exactly
when zero rows exist immediately after parsing (the header-only case); rows
that are dropped later for being entirely null are not counted, so a dataset
with zero data rows can be returned. -/
theorem empty_check_precedes_row_dropping (f : FileInput) (df : Dataset)
    (hparse :
      (excelExts.contains (lowerStr (extOf f.path)) = true ∧ f.readExcel = some df) ∨
      (csvExts.contains (lowerStr (extOf f.path)) = true ∧ f.readCsv f.detected = some df)) :
    (load_and_clean_data f = .error .emptyDataset ↔ dfEmpty df = true) := by
  have hload : load_and_clean_data f = afterParse df := by
    rcases hparse with ⟨hext, hread⟩ | ⟨hext, hread⟩
    · rw [load_excel_case f hext, hread]
    · rw [load_csv_case f (csv_contains_cases hext), hread]
  rw [hload]
  cases hdf : dfEmpty df with
  | false => simp [afterParse, hdf]
  | true => simp [afterParse, hdf]

/-- C4 witness: a header-only Excel workbook fails with EmptyDataset. -/
theorem empty_check_precedes_row_dropping_witness :
    excelExts.contains (lowerStr (extOf "book.xlsx")) = true ∧
    (load_and_clean_data ⟨"book.xlsx", some ⟨["h"], []⟩, "utf-8", fun _ => none⟩ =
        .error .emptyDataset ↔
      dfEmpty ⟨["h"], []⟩ = true) :=
  ⟨by decide,
   empty_check_precedes_row_dropping ⟨"book.xlsx", some ⟨["h"], []⟩, "utf-8", fun _ => none⟩
     ⟨["h"], []⟩ (Or.inl ⟨by decide, rfl⟩)⟩

/-! ### Matcher lemmas -/

theorem pickBest_mem :
    ∀ (l : List ((Nat × Nat) × String)) (acc : Option ((Nat × Nat) × String))
      (p : (Nat × Nat) × String),
      l.foldl pickStep acc = some p → p ∈ l ∨ acc = some p := by
  intro l
  induction l with
  | nil =>
    intro acc p h
    exact Or.inr h
  | cons x xs ih =>
    intro acc p h
    rcases ih (pickStep acc x) p h with hm | ha
    · exact Or.inl (List.mem_cons_of_mem x hm)
    · cases acc with
      | none =>
        have hx : x = p := Option.some.inj ha
        subst hx
        exact Or.inl (List.mem_cons_self x xs)
      | some q =>
        simp only [pickStep] at ha
        split at ha
        · have hx : x = p := Option.some.inj ha
          subst hx
          exact Or.inl (List.mem_cons_self x xs)
        · exact Or.inr ha

theorem getCloseMatch_some {word : String} {poss : List String} {m : String}
    (h : getCloseMatch word poss = some m) :
    m ∈ poss ∧ ratioGeCutoff m word = true := by
  simp only [getCloseMatch] at h
  rcases Option.map_eq_some'.mp h with ⟨p, hp, hpm⟩
  rcases pickBest_mem _ _ _ hp with hmem | hacc
  · rcases List.mem_filterMap.mp hmem with ⟨x, hx, hfx⟩
    split at hfx
    · next hcut =>
      have hpx : (ratioPair x word, x) = p := Option.some.inj hfx
      have hxm : x = m := by rw [← hpm, ← hpx]
      subst hxm
      exact ⟨hx, hcut⟩
    · cases hfx
  · cases hacc

theorem getCloseMatch_none {word : String} {poss : List String}
    (h : ∀ x ∈ poss, ratioGeCutoff x word = false) :
    getCloseMatch word poss = none := by
  simp only [getCloseMatch]
  have hnil : (poss.filterMap fun x =>
      if ratioGeCutoff x word then some (ratioPair x word, x) else none) = [] := by
    rw [List.filterMap_eq_nil_iff]
    intro x hx
    rw [h x hx]
    rfl
  rw [hnil]
  rfl

/-- The Bool cutoff test coincides with the rational statement ratio ≥ 2/5. -/
theorem ratioGeCutoff_iff (a b : String) :
    ratioGeCutoff a b = true ↔ (2 / 5 : Rat) ≤ simRatio a b := by
  simp only [ratioGeCutoff, simRatio]
  rcases Nat.eq_zero_or_pos (a.length + b.length) with ht | ht
  · rw [ht]
    norm_num
  · have htne : a.length + b.length ≠ 0 := Nat.pos_iff_ne_zero.mp ht
    rw [if_neg htne, if_neg htne]
    have htq : (0 : Rat) < ((a.length + b.length : Nat) : Rat) := by exact_mod_cast ht
    rw [div_le_div_iff₀ (by norm_num) htq, decide_eq_true_eq]
    constructor
    · intro hle
      have hn : 2 * (a.length + b.length) ≤ 2 * matchSum a.data b.data * 5 := by omega
      exact_mod_cast hn
    · intro hle
      have hn : 2 * (a.length + b.length) ≤ 2 * matchSum a.data b.data * 5 := by
        exact_mod_cast hle
      omega

/-! ### find_best_column lemmas -/

theorem fbcGo_cons_none {df : Dataset} {e t : String} {rest : List String}
    (hg : getCloseMatch (lowerStr t) (df.headers.map lowerStr) = none) :
    fbcGo df e (t :: rest) = fbcGo df e rest := by
  simp only [fbcGo]
  rw [hg]

theorem fbcGo_cons_some {df : Dataset} {e t m : String} {rest : List String}
    (hg : getCloseMatch (lowerStr t) (df.headers.map lowerStr) = some m) :
    fbcGo df e (t :: rest) =
      if lowerStr e == "revenue" then
        match (df.headers.filter fun c => lowerStr c == m).find?
            (fun c => isNumericCol df c) with
        | some col => some col
        | none => fbcGo df e rest
      else
        match (df.headers.filter fun c => lowerStr c == m).head? with
        | some col => some col
        | none => fbcGo df e rest := by
  simp only [fbcGo]
  rw [hg]

theorem fbcGo_mem {df : Dataset} {expected col : String} :
    ∀ {terms : List String}, fbcGo df expected terms = some col → col ∈ df.headers := by
  intro terms
  induction terms with
  | nil =>
    intro h
    cases h
  | cons t rest ih =>
    intro h
    cases hg : getCloseMatch (lowerStr t) (df.headers.map lowerStr) with
    | none =>
      rw [fbcGo_cons_none hg] at h
      exact ih h
    | some m =>
      rw [fbcGo_cons_some hg] at h
      split at h
      · cases hf : (df.headers.filter fun c => lowerStr c == m).find?
            (fun c => isNumericCol df c) with
        | none =>
          rw [hf] at h
          exact ih h
        | some c =>
          rw [hf] at h
          have hc : c = col := Option.some.inj h
          subst hc
          exact List.mem_of_mem_filter (List.mem_of_find?_eq_some hf)
      · cases hh : (df.headers.filter fun c => lowerStr c == m).head? with
        | none =>
          rw [hh] at h
          exact ih h
        | some c =>
          rw [hh] at h
          have hc : c = col := Option.some.inj h
          subst hc
          exact List.mem_of_mem_filter (List.mem_of_mem_head? hh)

theorem fbcGo_lower_cutoff {df : Dataset} {expected col : String} :
    ∀ {terms : List String}, fbcGo df expected terms = some col →
      ∃ t ∈ terms, ratioGeCutoff (lowerStr col) (lowerStr t) = true := by
  intro terms
  induction terms with
  | nil =>
    intro h
    cases h
  | cons t rest ih =>
    intro h
    cases hg : getCloseMatch (lowerStr t) (df.headers.map lowerStr) with
    | none =>
      rw [fbcGo_cons_none hg] at h
      rcases ih h with ⟨u, hu, hcut⟩
      exact ⟨u, List.mem_cons_of_mem t hu, hcut⟩
    | some m =>
      have hgm := getCloseMatch_some hg
      rw [fbcGo_cons_some hg] at h
      split at h
      · cases hf : (df.headers.filter fun c => lowerStr c == m).find?
            (fun c => isNumericCol df c) with
        | none =>
          rw [hf] at h
          rcases ih h with ⟨u, hu, hcut⟩
          exact ⟨u, List.mem_cons_of_mem t hu, hcut⟩
        | some c =>
          rw [hf] at h
          have hc : c = col := Option.some.inj h
          subst hc
          have hcm : (lowerStr c == m) = true :=
            (List.mem_filter.mp (List.mem_of_find?_eq_some hf)).2
          have hce : lowerStr c = m := eq_of_beq hcm
          exact ⟨t, List.mem_cons_self t rest, hce ▸ hgm.2⟩
      · cases hh : (df.headers.filter fun c => lowerStr c == m).head? with
        | none =>
          rw [hh] at h
          rcases ih h with ⟨u, hu, hcut⟩
          exact ⟨u, List.mem_cons_of_mem t hu, hcut⟩
        | some c =>
          rw [hh] at h
          have hc : c = col := Option.some.inj h
          subst hc
          have hcm : (lowerStr c == m) = true :=
            (List.mem_filter.mp (List.mem_of_mem_head? hh)).2
          have hce : lowerStr c = m := eq_of_beq hcm
          exact ⟨t, List.mem_cons_self t rest, hce ▸ hgm.2⟩

theorem fbcGo_revenue_numeric {df : Dataset} {col : String} :
    ∀ {terms : List String}, fbcGo df "Revenue" terms = some col →
      isNumericCol df col = true := by
  intro terms
  induction terms with
  | nil =>
    intro h
    cases h
  | cons t rest ih =>
    intro h
    cases hg : getCloseMatch (lowerStr t) (df.headers.map lowerStr) with
    | none =>
      rw [fbcGo_cons_none hg] at h
      exact ih h
    | some m =>
      rw [fbcGo_cons_some hg] at h
      split at h
      · cases hf : (df.headers.filter fun c => lowerStr c == m).find?
            (fun c => isNumericCol df c) with
        | none =>
          rw [hf] at h
          exact ih h
        | some c =>
          rw [hf] at h
          have hc : c = col := Option.some.inj h
          subst hc
          exact List.find?_some hf
      · next hrev =>
        exact absurd (by decide) hrev

/-! ### C3: the Revenue numeric check only guards the literal "Revenue" candidate -/

def c3df : Dataset := ⟨["Income"], [[Cell.str "high"], [Cell.str "low"]]⟩

def c3o : InferOutcome := .returns (some (Json.obj
  [("Revenue", .str "Income"), ("Product", .str "Income"),
   ("Region", .str "Income"), ("Month", .str "Income")]))

/-- C3 counterexample: "Income" is a Revenue synonym whose column holds
non-numeric values, yet the inference-proposed path (find_best_column receives
the proposed name "Income", not the role name) assigns it to Revenue. -/
theorem inference_path_assigns_nonnumeric_revenue :
    "Income" ∈ synonymsFor "Revenue" ∧
    isNumericCol c3df "Income" = false ∧
    resolve_roles c3df c3o =
      .ok (c3df, ⟨some "Income", some "Income", some "Income", some "Income"⟩) := by
  refine ⟨by decide, by decide, by decide⟩

/-- C3 (amended): the numeric-dtype requirement for Revenue holds only on the
local fallback path, where the candidate passed to find_best_column is the
role name "Revenue" itself (and on safe_column's numeric-dtype fallback); an
inference-proposed candidate under any other name skips the check. -/
theorem revenue_local_path_numeric :
    (∀ (df : Dataset) (col : String), find_best_column df "Revenue" = some col →
        isNumericCol df col = true) ∧
    (∀ (df : Dataset) (col : String), firstDtypeCol df Dtype.numeric = some col →
        colDtype (getCol df col) = Dtype.numeric) := by
  constructor
  · intro df col h
    exact fbcGo_revenue_numeric h
  · intro df col h
    have := List.find?_some h
    simpa using this

/-- C3 witness: the local path accepts the numeric "Revenue" column. -/
theorem revenue_local_path_numeric_witness :
    isNumericCol ⟨["Revenue"], [[Cell.num 1]]⟩ "Revenue" = true :=
  revenue_local_path_numeric.1 ⟨["Revenue"], [[Cell.num 1]]⟩ "Revenue" (by decide)

/-! ### C6: the Name Normalizer's similarity threshold -/

def c6df : Dataset := ⟨["Fecha"], [[Cell.str "2024-01-05"]]⟩

/-- C6 counterexample: for the (inference-proposable) candidate name "Month",
find_best_column returns the header "Fecha" whose similarity to the candidate
is 1/5, far below the 0.4 acceptance threshold — the synonym-list expansion
bypasses the candidate-to-header threshold the claim states. -/
theorem normalizer_returns_below_threshold :
    find_best_column c6df "Month" = some "Fecha" ∧
    simRatio (lowerStr "Fecha") (lowerStr "Month") < 2 / 5 := by
  constructor
  · decide
  · have hb : ratioGeCutoff (lowerStr "Fecha") (lowerStr "Month") = false := by decide
    by_contra hc
    rw [not_lt] at hc
    rw [(ratioGeCutoff_iff (lowerStr "Fecha") (lowerStr "Month")).mpr hc] at hb
    cases hb

/-- C6 (amended): for a candidate name that is not one of the four role keys
of the synonym table, find_best_column returns an actual header only when its
case-insensitive similarity to the candidate is at least the 0.4 threshold,
and returns absent when every header is below the threshold; when the
candidate is a role key, the whole synonym list is scanned and the returned
header can be below the threshold relative to the candidate itself. -/
theorem normalizer_threshold_for_nonkey :
    (∀ (df : Dataset) (cand col : String),
        COLUMN_SYNONYMS.find? (fun p => p.1 == cand) = none →
        find_best_column df cand = some col →
        col ∈ df.headers ∧ (2 / 5 : Rat) ≤ simRatio (lowerStr col) (lowerStr cand)) ∧
    (∀ (df : Dataset) (cand : String),
        COLUMN_SYNONYMS.find? (fun p => p.1 == cand) = none →
        (∀ hd ∈ df.headers, simRatio (lowerStr hd) (lowerStr cand) < 2 / 5) →
        find_best_column df cand = none) := by
  constructor
  · intro df cand col hkey h
    unfold find_best_column synonymsFor at h
    rw [hkey] at h
    refine ⟨fbcGo_mem h, ?_⟩
    rcases fbcGo_lower_cutoff h with ⟨t, ht, hcut⟩
    have : t = cand := by
      rcases List.mem_cons.mp ht with h1 | h1
      · exact h1
      · cases h1
    subst this
    exact (ratioGeCutoff_iff _ _).mp hcut
  · intro df cand hkey hall
    unfold find_best_column synonymsFor
    rw [hkey]
    unfold fbcGo
    rw [getCloseMatch_none]
    · rfl
    · intro x hx
      rcases List.mem_map.mp hx with ⟨hd, hhd, hlow⟩
      subst hlow
      cases hcut : ratioGeCutoff (lowerStr hd) (lowerStr cand) with
      | false => rfl
      | true =>
        have := (ratioGeCutoff_iff _ _).mp hcut
        exact absurd this (not_le.mpr (hall hd hhd))

/-- C6 witness: a non-key candidate close to an actual header is accepted and
meets the threshold. -/
theorem normalizer_threshold_for_nonkey_witness :
    COLUMN_SYNONYMS.find? (fun p => p.1 == "Sales_Amt") = none ∧
    ("Sales_Amount" ∈ (⟨["Sales_Amount"], [[Cell.num 1]]⟩ : Dataset).headers ∧
      (2 / 5 : Rat) ≤ simRatio (lowerStr "Sales_Amount") (lowerStr "Sales_Amt")) :=
  ⟨by decide,
   normalizer_threshold_for_nonkey.1 ⟨["Sales_Amount"], [[Cell.num 1]]⟩ "Sales_Amt"
     "Sales_Amount" (by decide) (by decide)⟩

/-! ### Dataset and safe_column lemmas -/

theorem idxOf?_mem : ∀ {l : List String} {n : String} {i : Nat},
    idxOf? l n = some i → n ∈ l := by
  intro l
  induction l with
  | nil =>
    intro n i h
    cases h
  | cons a t ih =>
    intro n i h
    unfold idxOf? at h
    split at h
    · next hb =>
      have hab : a = n := eq_of_beq hb
      subst hab
      exact List.mem_cons_self a t
    · cases hm : idxOf? t n with
      | none =>
        rw [hm] at h
        cases h
      | some j =>
        exact List.mem_cons_of_mem a (ih hm)

theorem mem_setCol_headers (df : Dataset) (n : String) (vs : List Cell) :
    n ∈ (setCol df n vs).headers := by
  unfold setCol
  cases hf : idxOf? df.headers n with
  | some i => exact idxOf?_mem hf
  | none => exact List.mem_append_right _ (List.mem_cons_self n [])

theorem headers_subset_setCol (df : Dataset) (n : String) (vs : List Cell) :
    df.headers ⊆ (setCol df n vs).headers := by
  unfold setCol
  cases idxOf? df.headers n with
  | some i => exact fun x hx => hx
  | none => exact fun x hx => List.mem_append_left _ hx

theorem safe_column_mem {df df2 : Dataset} {cur r : Option String} {role c : String}
    (hsc : safe_column df cur role = (df2, r)) (hr : r = some c) :
    c ∈ df2.headers := by
  subst hr
  unfold safe_column at hsc
  split at hsc
  · next hok =>
    have hdf : df = df2 := congrArg Prod.fst hsc
    have hcur : cur = some c := congrArg Prod.snd hsc
    subst hdf
    rw [hcur] at hok
    simp only [currentOk, Bool.and_eq_true] at hok
    exact List.elem_iff.mp hok.2
  · split at hsc
    · have hdf : df = df2 := congrArg Prod.fst hsc
      have hfc : firstDtypeCol df Dtype.numeric = some c := congrArg Prod.snd hsc
      subst hdf
      exact List.mem_of_find?_eq_some hfc
    · split at hsc
      · split at hsc
        · next col hfind =>
          have hdf : df = df2 := congrArg Prod.fst hsc
          have hcc : some col = some c := congrArg Prod.snd hsc
          have hcol : col = c := Option.some.inj hcc
          subst hdf
          subst hcol
          exact List.mem_of_find?_eq_some hfind
        · split at hsc
          · have hdf : setCol df "Month"
                ((getCol df "Date").map (fun x => periodCell (toDatetime x))) = df2 :=
              congrArg Prod.fst hsc
            have hcc : some "Month" = some c := congrArg Prod.snd hsc
            have hc : "Month" = c := Option.some.inj hcc
            rw [← hdf, ← hc]
            exact mem_setCol_headers df "Month" _
          · have hcc : (none : Option String) = some c := congrArg Prod.snd hsc
            cases hcc
      · have hdf : df = df2 := congrArg Prod.fst hsc
        have hfc : firstDtypeCol df Dtype.object = some c := congrArg Prod.snd hsc
        subst hdf
        exact List.mem_of_find?_eq_some hfc

theorem safe_column_shape (df : Dataset) (cur : Option String) (role : String) :
    (safe_column df cur role).1 = df ∨
    (safe_column df cur role).1 =
      setCol df "Month" ((getCol df "Date").map (fun c => periodCell (toDatetime c))) := by
  unfold safe_column
  split
  · exact Or.inl rfl
  · split
    · exact Or.inl rfl
    · split
      · split
        · exact Or.inl rfl
        · split
          · exact Or.inr rfl
          · exact Or.inl rfl
      · exact Or.inl rfl

theorem safe_column_sub (df : Dataset) (cur : Option String) (role : String) :
    df.headers ⊆ (safe_column df cur role).1.headers := by
  rcases safe_column_shape df cur role with hs | hs <;> rw [hs]
  · exact fun x hx => hx
  · exact headers_subset_setCol df "Month" _

theorem applyRoles_ok {df df2 : Dataset} {d : JDict} {m : RoleMapping}
    (h : applyRoles df d = .ok (df2, m)) :
    ∃ rc pc gc mc,
      candidateFor d "Revenue" = .ok rc ∧
      candidateFor d "Product" = .ok pc ∧
      candidateFor d "Region" = .ok gc ∧
      candidateFor d "Month" = .ok mc ∧
      (let p1 := resolveRole df rc "Revenue"
       let p2 := resolveRole p1.1 pc "Product"
       let p3 := resolveRole p2.1 gc "Region"
       let p4 := resolveRole p3.1 mc "Month"
       df2 = p4.1 ∧ m = RoleMapping.mk p1.2 p2.2 p3.2 p4.2) := by
  unfold applyRoles at h
  split at h
  · simp at h
  · next rc hrc =>
    split at h
    · simp at h
    · next pc hpc =>
      split at h
      · simp at h
      · next gc hgc =>
        split at h
        · simp at h
        · next mc hmc =>
          have hp := Except.ok.inj h
          refine ⟨rc, pc, gc, mc, hrc, hpc, hgc, hmc,
            (congrArg Prod.fst hp).symm, (congrArg Prod.snd hp).symm⟩

/-! ### C7: RoleMapping invariant -/

def c7df : Dataset := ⟨["Income", "Item"], [[Cell.str "x", Cell.str "A"]]⟩

def c7o : InferOutcome := .returns (some (Json.obj
  [("Revenue", .str "Income"), ("Product", .str "Item"),
   ("Region", .str "Item"), ("Month", .str "Item")]))

/-- C7 counterexample: a produced RoleMapping maps Revenue to the "Income"
column whose values are strings, so the numeric half of the claimed invariant
fails (the membership half holds). -/
theorem mapping_revenue_not_numeric :
    resolve_roles c7df c7o =
      .ok (c7df, ⟨some "Income", some "Item", some "Item", some "Item"⟩) ∧
    colDtype (getCol c7df "Income") ≠ Dtype.numeric := by
  exact ⟨by decide, by decide⟩

/-- C7 (amended): every present value of a produced RoleMapping names a column
of the dataset returned alongside it (the dataset after any Month append); the
numericity of the Revenue column is not guaranteed. -/
theorem mapping_values_name_columns (df df2 : Dataset) (o : InferOutcome)
    (m : RoleMapping) (h : resolve_roles df o = .ok (df2, m)) :
    (∀ c, m.revenue = some c → c ∈ df2.headers) ∧
    (∀ c, m.product = some c → c ∈ df2.headers) ∧
    (∀ c, m.region = some c → c ∈ df2.headers) ∧
    (∀ c, m.month = some c → c ∈ df2.headers) := by
  unfold resolve_roles at h
  split at h
  · simp at h
  · next d hd =>
    rcases applyRoles_ok h with ⟨rc, pc, gc, mc, _, _, _, _, hdf2, hm⟩
    set p1 := resolveRole df rc "Revenue" with hp1
    set p2 := resolveRole p1.1 pc "Product" with hp2
    set p3 := resolveRole p2.1 gc "Region" with hp3
    set p4 := resolveRole p3.1 mc "Month" with hp4
    subst hdf2
    subst hm
    have s2 : p1.1.headers ⊆ p2.1.headers := by
      rw [hp2]
      exact safe_column_sub p1.1 (find_best_column p1.1 pc) "Product"
    have s3 : p2.1.headers ⊆ p3.1.headers := by
      rw [hp3]
      exact safe_column_sub p2.1 (find_best_column p2.1 gc) "Region"
    have s4 : p3.1.headers ⊆ p4.1.headers := by
      rw [hp4]
      exact safe_column_sub p3.1 (find_best_column p3.1 mc) "Month"
    refine ⟨?_, ?_, ?_, ?_⟩
    · intro c hc
      have := safe_column_mem (Prod.mk.eta (p := p1)).symm hc
      exact s4 (s3 (s2 this))
    · intro c hc
      have := safe_column_mem (Prod.mk.eta (p := p2)).symm hc
      exact s4 (s3 this)
    · intro c hc
      have := safe_column_mem (Prod.mk.eta (p := p3)).symm hc
      exact s4 this
    · intro c hc
      exact safe_column_mem (Prod.mk.eta (p := p4)).symm hc

/-- C7 witness: the locally resolved mapping on a numeric one-column dataset
names only real columns. -/
theorem mapping_values_name_columns_witness :
    (∀ c, (RoleMapping.mk (some "Revenue") none (some "Revenue") none).revenue = some c →
        c ∈ (Dataset.mk ["Revenue"] [[Cell.num 3]]).headers) ∧
    (∀ c, (RoleMapping.mk (some "Revenue") none (some "Revenue") none).product = some c →
        c ∈ (Dataset.mk ["Revenue"] [[Cell.num 3]]).headers) ∧
    (∀ c, (RoleMapping.mk (some "Revenue") none (some "Revenue") none).region = some c →
        c ∈ (Dataset.mk ["Revenue"] [[Cell.num 3]]).headers) ∧
    (∀ c, (RoleMapping.mk (some "Revenue") none (some "Revenue") none).month = some c →
        c ∈ (Dataset.mk ["Revenue"] [[Cell.num 3]]).headers) :=
  mapping_values_name_columns ⟨["Revenue"], [[Cell.num 3]]⟩ ⟨["Revenue"], [[Cell.num 3]]⟩
    (.returns none) ⟨some "Revenue", none, some "Revenue", none⟩ (by decide)

/-! ### C8: role resolution can mutate the dataset -/

theorem set_getD_self : ∀ (r : List Cell) (i : Nat) (v : Cell), i < r.length →
    (r.set i v).getD i Cell.null = v := by
  intro r
  induction r with
  | nil =>
    intro i v h
    exact absurd h (Nat.not_lt_zero i)
  | cons a t ih =>
    intro i v h
    cases i with
    | zero => rfl
    | succ j => exact ih j v (Nat.lt_of_succ_lt_succ h)

theorem append_getD_self : ∀ (r : List Cell) (v : Cell),
    (r ++ [v]).getD r.length Cell.null = v := by
  intro r v
  induction r with
  | nil => rfl
  | cons a t ih => exact ih

theorem idxOf?_lt_length : ∀ {l : List String} {n : String} {i : Nat},
    idxOf? l n = some i → i < l.length := by
  intro l
  induction l with
  | nil =>
    intro n i h
    cases h
  | cons a t ih =>
    intro n i h
    unfold idxOf? at h
    split at h
    · have h0 : (0 : Nat) = i := Option.some.inj h
      rw [← h0]
      exact Nat.succ_pos t.length
    · cases hm : idxOf? t n with
      | none =>
        rw [hm] at h
        cases h
      | some j =>
        rw [hm] at h
        have hj : j + 1 = i := Option.some.inj h
        rw [← hj]
        exact Nat.succ_lt_succ (ih hm)

theorem idxOf?_isSome_of_mem : ∀ {l : List String} {n : String}, n ∈ l →
    ∃ i, idxOf? l n = some i := by
  intro l
  induction l with
  | nil =>
    intro n h
    cases h
  | cons a t ih =>
    intro n h
    unfold idxOf?
    by_cases hb : (a == n) = true
    · exact ⟨0, by rw [if_pos hb]⟩
    · rcases List.mem_cons.mp h with h1 | h1
      · exact absurd (beq_iff_eq.mpr h1.symm) hb
      · rcases ih h1 with ⟨i, hi⟩
        exact ⟨i + 1, by rw [if_neg hb, hi]; rfl⟩

theorem idxOf?_append_self : ∀ (l : List String) (n : String),
    idxOf? l n = none → idxOf? (l ++ [n]) n = some l.length := by
  intro l
  induction l with
  | nil =>
    intro n _
    rw [List.nil_append]
    unfold idxOf?
    rw [if_pos (beq_iff_eq.mpr rfl)]
    rfl
  | cons a t ih =>
    intro n h
    unfold idxOf? at h
    rw [List.cons_append]
    unfold idxOf?
    split at h
    · cases h
    · next hb =>
      rw [if_neg hb]
      cases hm : idxOf? t n with
      | some j =>
        rw [hm] at h
        cases h
      | none =>
        rw [ih n hm]
        rfl

theorem getCol_length {df : Dataset} {n : String} (h : n ∈ df.headers) :
    (getCol df n).length = df.rows.length := by
  rcases idxOf?_isSome_of_mem h with ⟨i, hi⟩
  unfold getCol
  rw [hi]
  exact List.length_map _ _

theorem mem_zipWith {f : List Cell → Cell → List Cell} :
    ∀ {rows : List (List Cell)} {vs : List Cell} {r2 : List Cell},
      r2 ∈ List.zipWith f rows vs → ∃ r ∈ rows, ∃ v, r2 = f r v := by
  intro rows
  induction rows with
  | nil =>
    intro vs r2 h
    simp at h
  | cons r rs ih =>
    intro vs r2 h
    cases vs with
    | nil => simp at h
    | cons v vt =>
      rw [List.zipWith_cons_cons] at h
      rcases List.mem_cons.mp h with h1 | h1
      · exact ⟨r, List.mem_cons_self r rs, v, h1⟩
      · rcases ih h1 with ⟨r0, hr0, v0, he⟩
        exact ⟨r0, List.mem_cons_of_mem r hr0, v0, he⟩

theorem WF_setCol {df : Dataset} (n : String) (vs : List Cell) (hwf : WF df) :
    WF (setCol df n vs) := by
  unfold setCol
  cases idxOf? df.headers n with
  | some i =>
    intro r2 hr2
    rcases mem_zipWith hr2 with ⟨r, hr, v, he⟩
    subst he
    show (r.set i v).length = df.headers.length
    rw [List.length_set]
    exact hwf r hr
  | none =>
    intro r2 hr2
    rcases mem_zipWith hr2 with ⟨r, hr, v, he⟩
    subst he
    show (r ++ [v]).length = (df.headers ++ [n]).length
    simp [hwf r hr]

theorem setCol_rows_length {df : Dataset} {n : String} {vs : List Cell}
    (hlen : vs.length = df.rows.length) :
    (setCol df n vs).rows.length = df.rows.length := by
  unfold setCol
  cases idxOf? df.headers n with
  | some i =>
    show (List.zipWith (fun r v => r.set i v) df.rows vs).length = df.rows.length
    rw [List.length_zipWith, hlen, Nat.min_self]
  | none =>
    show (List.zipWith (fun r v => r ++ [v]) df.rows vs).length = df.rows.length
    rw [List.length_zipWith, hlen, Nat.min_self]

theorem map_getD_zipWith_set (i : Nat) :
    ∀ (rows : List (List Cell)) (vs : List Cell),
      vs.length = rows.length → (∀ r ∈ rows, i < r.length) →
      (List.zipWith (fun r v => r.set i v) rows vs).map (fun r => r.getD i Cell.null) = vs := by
  intro rows
  induction rows with
  | nil =>
    intro vs hlen _
    cases vs with
    | nil => rfl
    | cons v vt => cases hlen
  | cons r rs ih =>
    intro vs hlen hall
    cases vs with
    | nil => cases hlen
    | cons v vt =>
      rw [List.zipWith_cons_cons, List.map_cons]
      rw [set_getD_self r i v (hall r (List.mem_cons_self r rs))]
      rw [ih vt (by simpa using hlen) (fun x hx => hall x (List.mem_cons_of_mem r hx))]

theorem map_getD_zipWith_append (L : Nat) :
    ∀ (rows : List (List Cell)) (vs : List Cell),
      vs.length = rows.length → (∀ r ∈ rows, r.length = L) →
      (List.zipWith (fun r v => r ++ [v]) rows vs).map (fun r => r.getD L Cell.null) = vs := by
  intro rows
  induction rows with
  | nil =>
    intro vs hlen _
    cases vs with
    | nil => rfl
    | cons v vt => cases hlen
  | cons r rs ih =>
    intro vs hlen hall
    cases vs with
    | nil => cases hlen
    | cons v vt =>
      rw [List.zipWith_cons_cons, List.map_cons]
      have hr : r.length = L := hall r (List.mem_cons_self r rs)
      have hgd : (r ++ [v]).getD L Cell.null = v := by
        rw [← hr]
        exact append_getD_self r v
      rw [hgd]
      rw [ih vt (by simpa using hlen) (fun x hx => hall x (List.mem_cons_of_mem r hx))]

theorem getCol_setCol_self {df : Dataset} {n : String} {vs : List Cell}
    (hwf : WF df) (hlen : vs.length = df.rows.length) :
    getCol (setCol df n vs) n = vs := by
  unfold setCol
  cases hf : idxOf? df.headers n with
  | some i =>
    dsimp only
    unfold getCol
    dsimp only
    rw [hf]
    dsimp only
    apply map_getD_zipWith_set
    · exact hlen
    · intro r hr
      rw [hwf r hr]
      exact idxOf?_lt_length hf
  | none =>
    dsimp only
    unfold getCol
    dsimp only
    rw [idxOf?_append_self df.headers n hf]
    dsimp only
    apply map_getD_zipWith_append
    · exact hlen
    · intro r hr
      exact hwf r hr

theorem WF_preFrame (df : Dataset) (hwf : WF df) : WF (preFrame df) := by
  intro r hr
  show r.length = (df.headers.map (fun h => trimStr h)).length
  rw [List.length_map]
  exact hwf r (List.mem_of_mem_filter hr)

/-! ### C5: header trimming, empty-row dropping, and Date-only Month derivation -/

/-- C5: the loader's cleaning pass trims every header, drops exactly the rows
whose cells are all null, and, exactly when a (trimmed) column named literally
"Date" exists, coerces it to dates and derives a "Month" column holding the
month label of each row's parsed date (unparseable dates yield the null
marker's label); a date-bearing column under another name such as "Fecha"
does not trigger the derivation — it is merely renamed by the synonym
substitution, its values left untouched. -/
theorem loader_cleaning_behavior (df : Dataset) (hwf : WF df) :
    cleanFrame df =
      substitute_column_names
        (if (preFrame df).headers.contains "Date" then deriveMonth (preFrame df)
         else preFrame df) ∧
    ((preFrame df).headers.contains "Date" = true →
      getCol (deriveMonth (preFrame df)) "Month" =
        (getCol (preFrame df) "Date").map (fun c => Cell.str (periodStr (toDatetime c)))) ∧
    (preFrame df).headers = df.headers.map (fun h => trimStr h) ∧
    (preFrame df).rows = df.rows.filter (fun r => !(rowAllNull r)) ∧
    cleanFrame ⟨["Fecha"], [[Cell.str "2024-03-15"]]⟩ =
      ⟨["Month"], [[Cell.str "2024-03-15"]]⟩ := by
  refine ⟨rfl, ?_, rfl, rfl, by decide⟩
  intro hdate
  have hmem : "Date" ∈ (preFrame df).headers := List.elem_iff.mp hdate
  have hwfp : WF (preFrame df) := WF_preFrame df hwf
  unfold deriveMonth
  have hplen : ((getCol (preFrame df) "Date").map toDatetime).length =
      (preFrame df).rows.length := by
    rw [List.length_map]
    exact getCol_length hmem
  have hwf1 : WF (setCol (preFrame df) "Date" ((getCol (preFrame df) "Date").map toDatetime)) :=
    WF_setCol "Date" _ hwfp
  have hrows1 : (setCol (preFrame df) "Date"
      ((getCol (preFrame df) "Date").map toDatetime)).rows.length =
      (preFrame df).rows.length := setCol_rows_length hplen
  rw [getCol_setCol_self hwf1 (by rw [List.length_map, hplen, hrows1])]
  rw [List.map_map]
  rfl

/-- C5 witness: a header " Date " is trimmed to "Date" and the Month column
derived from its parsed dates. -/
theorem loader_cleaning_behavior_witness :
    getCol (deriveMonth (preFrame ⟨[" Date "], [[Cell.str "2024-03-15"], [Cell.str "bad"]]⟩))
        "Month" =
      (getCol (preFrame ⟨[" Date "], [[Cell.str "2024-03-15"], [Cell.str "bad"]]⟩) "Date").map
        (fun c => Cell.str (periodStr (toDatetime c))) :=
  (loader_cleaning_behavior ⟨[" Date "], [[Cell.str "2024-03-15"], [Cell.str "bad"]]⟩
    (by unfold WF; decide)).2.1 (by decide)

end BIW
